import Mathlib

/-!
# Verification of the Email-Attachments-Fetcher core

A shallow embedding, in Lean 4, of the retrieval engine of
`email_downloader.py` (class `EmailAttachmentDownloader`), together with
theorems settling the specification's claims about it.

Conventions of the embedding:
* Python strings are `List Char` (abbreviated `Str`); bytes are `List Nat`.
* The IMAP session (`self.mail`) is an `Option Server`, where `Server`
  records the outcome of `select`, `search` and a per-message `fetch`
  oracle (`none` models both a non-`'OK'` fetch status and a raised
  exception, which the source treats identically: both `continue`).
* The filesystem is an association list from paths to byte contents;
  `open(path, 'wb')` followed by `write` is modelled by consing
  `(path, bytes)` (the most recent entry shadows older ones, exactly as a
  truncating write replaces the old contents). Directories are tracked
  separately, as `os.makedirs` creates directories, not files.
* Observable side effects (directory creation, folder selection, the
  search command, fetch attempts, file writes) are recorded in an event
  trace so that ordering and frame claims can be stated.
-/

namespace EmailFetcher

/-- Python strings, modelled as lists of characters. -/
abbrev Str := List Char

/-- ASCII lower-casing of one character (`str.lower` restricted to the
ASCII range, which is the only range exercised by extension filters such
as `'.XLSX'`). -/
def pyLower (c : Char) : Char :=
  if 'A' ≤ c ∧ c ≤ 'Z' then Char.ofNat (c.toNat + 32) else c

/-- Index of the last occurrence of `c`, scanning with a running index;
auxiliary for `rfind`. -/
def rfindAux (c : Char) : Str → Nat → Option Nat
  | [], _ => none
  | x :: xs, i =>
    match rfindAux c xs (i + 1) with
    | some j => some j
    | none => if x = c then some i else none

/-- Python `s.rfind(c)`, as an `Option Nat` (`none` for "not found",
which Python renders as `-1`). -/
def rfind (c : Char) (s : Str) : Option Nat := rfindAux c s 0

/-- The index at which `posixpath.splitext` cuts `p` (equal to
`p.length` when there is no extension): the last `'.'` counts as the cut
point provided it lies after the last path separator and the base name
up to it is not made up exclusively of dots (so `".bashrc"` has no
extension). Faithful to CPython's `genericpath._splitext`. -/
def splitextIdx (p : Str) : Nat :=
  let sepIdx : Int := match rfind '/' p with | some i => (i : Int) | none => -1
  let dotIdx : Int := match rfind '.' p with | some i => (i : Int) | none => -1
  if sepIdx < dotIdx then
    let fnStart : Nat := (sepIdx + 1).toNat
    let dotN : Nat := dotIdx.toNat
    if ((p.drop fnStart).take (dotN - fnStart)).any (fun c => c ≠ '.') then dotN
    else p.length
  else p.length

/-- `posixpath.splitext`: root and extension of a path (taking and
dropping at the cut index; a cut at `p.length` yields `(p, [])`, i.e. no
extension). -/
def splitextList (p : Str) : Str × Str :=
  (p.take (splitextIdx p), p.drop (splitextIdx p))

/-- Python slice `s[:k]` for an `Int` bound `k`: a negative bound counts
from the end of the string (clipped at zero). -/
def pySliceTake (s : Str) (k : Int) : Str :=
  if 0 ≤ k then s.take k.toNat else s.take (s.length - (-k).toNat)

/-- The strip-set of `filename.strip(' .')`. -/
def isSpaceDot (c : Char) : Bool := c == ' ' || c == '.'

/-- Python `s.strip(' .')`: drop characters of the strip-set from both
ends. -/
def stripSpaceDot (s : Str) : Str :=
  ((s.dropWhile isSpaceDot).reverse.dropWhile isSpaceDot).reverse

/-- The reserved characters of `_create_safe_filename`
(`invalid_chars = '<>:"/\\|?*'`). -/
def invalidChars : Str := ['<', '>', ':', '"', '/', '\\', '|', '?', '*']

/-- The loop `for char in invalid_chars: filename = filename.replace(char, '_')`.
Each pass replaces every occurrence of a single character with `'_'`, and
`'_'` itself is not in the reserved set, so the nine sequential passes
amount to one character-wise map. -/
def replaceInvalid (s : Str) : Str :=
  s.map (fun c => if c ∈ invalidChars then '_' else c)

/-- The fallback name used by `_create_safe_filename`. -/
def unnamedFile : Str := "unnamed_file".toList

/-- The truncation step of `_create_safe_filename`:
`if len(filename) > 200: name, ext = os.path.splitext(filename);
filename = name[:200-len(ext)] + ext`. -/
def truncate200 (s2 : Str) : Str :=
  if 200 < s2.length then
    pySliceTake (splitextList s2).1 (200 - ((splitextList s2).2.length : Int))
      ++ (splitextList s2).2
  else s2

/-- `EmailAttachmentDownloader._create_safe_filename`
(`email_downloader.py`, lines 268-290): replace reserved characters with
`'_'`, strip spaces and dots from the ends, truncate to 200 characters
preserving the (sanitized) extension, and substitute `"unnamed_file"`
for empty results. -/
def createSafeFilename (s : Str) : Str :=
  if s = [] then unnamedFile
  else
    let s3 := truncate200 (stripSpaceDot (replaceInvalid s))
    if s3 = [] then unnamedFile else s3

/-- Whether a path begins with `'/'`. -/
def startsWithSlash (s : Str) : Bool :=
  match s with
  | [] => false
  | c :: _ => c == '/'

/-- Whether a path ends with `'/'`. -/
def endsWithSlash (s : Str) : Bool := startsWithSlash s.reverse

/-- `posixpath.join` for two components, as used by
`os.path.join(download_path, safe_filename)`. -/
def pathJoin (a b : Str) : Str :=
  if startsWithSlash b then b
  else if a.isEmpty || endsWithSlash a then a ++ b
  else a ++ '/' :: b

/-! ## Range selection and batching -/

/-- The batching loop
`for batch_start in range(0, len(message_list), batch_size):
   batch_messages = message_list[batch_start:batch_end]`,
written as fuel-based recursion (the fuel `ids.length` suffices whenever
`0 < b`; Python raises `ValueError` for `batch_size = 0`, so that case
carries no behaviour to model and the function returns `[]` there). -/
def chunkAux (b : Nat) : Nat → List Nat → List (List Nat)
  | 0, _ => []
  | _ + 1, [] => []
  | fuel + 1, ids => ids.take b :: chunkAux b fuel (ids.drop b)

/-- Partition of a message-ID sequence into consecutive batches of size
`b` (the spec's `planBatches`), as performed by the batching loops of
`download_attachments_from_folder`, `download_attachments_with_count_limit`
and `download_attachments_recent_days`. -/
def planBatches (ids : List Nat) (b : Nat) : List (List Nat) := chunkAux b ids.length ids

/-- The count-limit selection of `download_attachments_with_count_limit`
(`email_downloader.py`, lines 600-606): `message_list.reverse()` followed
by `message_list[:count_limit]`. -/
def countLimitSelection (raw : List Nat) (n : Nat) : List Nat := raw.reverse.take n

/-- Modelled from the spec: "take the first `n` entries of the ID
sequence after it has been reordered oldest-first", for a server that
returns IDs in ascending assignment order (RFC 3501 message sequence
numbers are positional, so an ascending sequence is already
oldest-first). -/
def specOldestSelection (raw : List Nat) (n : Nat) : List Nat := raw.take n

/-! ## Calendar dates and the IMAP search criterion -/

/-- A calendar date, as carried by a `DateRange` specification after the
`YYYYMMDD` strings have been parsed by
`_convert_date_to_imap_format` / `datetime.strptime`. -/
structure CalDate where
  y : Nat
  m : Nat
  d : Nat
  deriving DecidableEq

/-- Calendar order: year, then month, then day (non-strict). -/
def dateLeP (a b : CalDate) : Prop :=
  a.y < b.y ∨ (a.y = b.y ∧ (a.m < b.m ∨ (a.m = b.m ∧ a.d ≤ b.d)))

/-- Calendar order: year, then month, then day (strict). -/
def dateLtP (a b : CalDate) : Prop :=
  a.y < b.y ∨ (a.y = b.y ∧ (a.m < b.m ∨ (a.m = b.m ∧ a.d < b.d)))

instance (a b : CalDate) : Decidable (dateLeP a b) := by
  unfold dateLeP; infer_instance

instance (a b : CalDate) : Decidable (dateLtP a b) := by
  unfold dateLtP; infer_instance

/-- An IMAP search key over receipt dates (the fragment the code
emits). -/
inductive SearchKey where
  | since (dt : CalDate)
  | before (dt : CalDate)
  | both (k1 k2 : SearchKey)

/-- Modelled from the spec: RFC 3501 semantics of the date search keys
issued to the external IMAP server. `SINCE d` matches messages whose
internal date is within or later than `d`; `BEFORE d` matches messages
whose internal date is earlier than `d`; a parenthesized pair is a
conjunction. -/
def evalKey : SearchKey → CalDate → Bool
  | .since s, dt => decide (dateLeP s dt)
  | .before e, dt => decide (dateLtP dt e)
  | .both k1 k2, dt => evalKey k1 dt && evalKey k2 dt

/-- The criterion built by `download_attachments_by_date_range`
(`email_downloader.py`, line 345):
`f'(SINCE "{imap_start_date}" BEFORE "{imap_end_date}")'`. -/
def dateRangeCriterion (s e : CalDate) : SearchKey := .both (.since s) (.before e)

/-- Modelled from the spec: the claim's selection predicate, "receipt
calendar date d satisfies start ≤ d ≤ end, with both bounds
inclusive". -/
def specDateInRange (s e dt : CalDate) : Prop := dateLeP s dt ∧ dateLeP dt e

instance (s e dt : CalDate) : Decidable (specDateInRange s e dt) := by
  unfold specDateInRange
  infer_instance

/-! ## Messages, the filesystem and the retrieval engine -/

/-- One part of a parsed MIME message, holding exactly the fields the
source inspects: `get_content_maintype()`, `get('Content-Disposition')`,
`get_filename()` (already passed through `_decode_filename`, whose MIME
decoding is a library capability external to this engine) and the
decoded payload bytes. -/
structure Part where
  maintype : Str
  disposition : Option Str
  filename : Option Str
  content : List Nat
  deriving DecidableEq

/-- The download directory's filesystem: an association list from paths
to byte contents; the most recent entry for a path shadows older ones. -/
abbrev FS := List (Str × List Nat)

/-- File lookup (`os.path.exists` is `isSome` of this; the stored bytes
are what a reader of the path would see). -/
def lookupFS (fs : FS) (p : Str) : Option (List Nat) :=
  match fs with
  | [] => none
  | (q, b) :: rest => if q = p then some b else lookupFS rest p

/-- Observable side effects of one retrieval run, in order. -/
inductive Event where
  | mkdir (dir : Str)
  | selectFolder
  | searchCmd
  | fetchMsg (n : Nat)
  | writeFile (p : Str)
  deriving DecidableEq

/-- Ambient state threaded through a run: files on disk, directories on
disk, and the trace of side effects so far. -/
structure RunState where
  files : FS
  dirs : List Str
  events : List Event
  deriving DecidableEq

/-- The mailbox session (`self.mail` after `connect`), recording the
server's responses: the status of `select`, the status of `search`, the
ID sequence the search returns, and a fetch oracle (`none` models a
non-`'OK'` fetch status or a raised exception — the source handles both
with `continue`; `some parts` is a successfully parsed message in
`walk()` order). -/
structure Server where
  selectOk : Bool
  searchOk : Bool
  searchIds : List Nat
  fetch : Nat → Option (List Part)

/-- Accumulator of the per-message loops: ambient state plus the
`downloaded_files` list and a count of actual file writes. -/
structure ExtState where
  rs : RunState
  downloaded : List Str
  writes : Nat
  deriving DecidableEq

/-- Python truthiness of the `file_types` argument (`if file_types:`):
`None` and the empty list are both falsy. -/
def typesActive (t : Option (List Str)) : Bool :=
  match t with
  | none => false
  | some l => !l.isEmpty

/-- The extension filter
`file_ext = os.path.splitext(filename)[1].lower()`;
`if file_ext not in file_types: continue`. -/
def extFilterRejects (t : Option (List Str)) (fname : Str) : Bool :=
  typesActive t && !((t.getD []).contains ((splitextList fname).2.map pyLower))

/-- Python truthiness of `part.get_filename()` (`if filename:`). -/
def filenameTruthy (p : Part) : Bool :=
  match p.filename with
  | some f => !f.isEmpty
  | none => false

/-- The destination path a part leads to, or `none` when the part is
skipped: the gate sequence of the attachment loop
(`email_downloader.py`, lines 209-229) — skip `multipart` containers,
skip parts without a `Content-Disposition` header, skip parts without a
(truthy) filename, apply the extension filter, then sanitize and join. -/
def partTarget (t : Option (List Str)) (dir : Str) (p : Part) : Option Str :=
  if p.maintype = "multipart".toList then none
  else if p.disposition.isNone then none
  else
    match p.filename with
    | none => none
    | some f =>
      if f.isEmpty then none
      else if extFilterRejects t f then none
      else some (pathJoin dir (createSafeFilename f))

/-- Processing of one candidate part (`email_downloader.py`,
lines 231-248): with `checkExists = true` (the `from_folder`,
`count_limit` and `recent_days` variants) an existing destination file is
recorded without a write; `download_attachments_by_date_range`
(lines 401-414) has no existence check (`checkExists = false`) and always
writes. -/
def processPart (checkExists : Bool) (t : Option (List Str)) (dir : Str)
    (st : ExtState) (p : Part) : ExtState :=
  match partTarget t dir p with
  | none => st
  | some path =>
    if checkExists && (lookupFS st.rs.files path).isSome then
      { st with downloaded := st.downloaded ++ [path] }
    else
      { st with
          rs := { st.rs with
                    files := (path, p.content) :: st.rs.files,
                    events := st.rs.events ++ [Event.writeFile path] },
          downloaded := st.downloaded ++ [path],
          writes := st.writes + 1 }

/-- The `for part in email_message.walk():` loop over one message. -/
def processParts (checkExists : Bool) (t : Option (List Str)) (dir : Str)
    (st : ExtState) (parts : List Part) : ExtState :=
  parts.foldl (processPart checkExists t dir) st

/-- The per-message loop: attempt the fetch (recorded in the trace), and
on failure (`status != 'OK'` or an exception) skip the message. -/
def processIds (checkExists : Bool) (sv : Server) (t : Option (List Str)) (dir : Str)
    (st : ExtState) (ids : List Nat) : ExtState :=
  ids.foldl
    (fun st1 n =>
      let st2 := { st1 with rs := { st1.rs with events := st1.rs.events ++ [Event.fetchMsg n] } }
      match sv.fetch n with
      | none => st2
      | some parts => processParts checkExists t dir st2 parts)
    st

/-- The batch loop: process each batch in order. -/
def processBatches (checkExists : Bool) (sv : Server) (t : Option (List Str)) (dir : Str)
    (st : ExtState) (batches : List (List Nat)) : ExtState :=
  batches.foldl (processIds checkExists sv t dir) st

/-- `if not os.path.exists(download_path): os.makedirs(download_path)`:
ensure the download directory exists (created recursively by
`os.makedirs`), recording the creation when it happens. -/
def ensureDir (dir : Str) (rs : RunState) : RunState :=
  if rs.dirs.contains dir then rs
  else { rs with dirs := dir :: rs.dirs, events := rs.events ++ [Event.mkdir dir] }

/-- Result of one download call: the Python return value (`none` is
Python's `None`, from a bare `return`), the final ambient state, the
number of file writes performed, and whether a failure message was
printed. -/
structure RunResult where
  ret : Option (List Str)
  state : RunState
  writes : Nat
  errorSignal : Bool
  deriving DecidableEq

/-- `EmailAttachmentDownloader.download_attachments_from_folder`
(`email_downloader.py`, lines 129-266): guard on the session, ensure the
download directory, select the folder, search `'ALL'`, reverse the ID
list, and process it in batches with the existence check enabled. -/
def download_attachments_from_folder (mail : Option Server) (t : Option (List Str))
    (dir : Str) (batchSize : Nat) (rs : RunState) : RunResult :=
  match mail with
  | none => ⟨none, rs, 0, true⟩
  | some sv =>
    let rs1 := ensureDir dir rs
    let rs2 := { rs1 with events := rs1.events ++ [Event.selectFolder] }
    if sv.selectOk = false then ⟨none, rs2, 0, true⟩
    else
      let rs3 := { rs2 with events := rs2.events ++ [Event.searchCmd] }
      if sv.searchOk = false then ⟨none, rs3, 0, true⟩
      else
        let fin := processBatches true sv t dir ⟨rs3, [], 0⟩
          (planBatches sv.searchIds.reverse batchSize)
        ⟨some fin.downloaded, fin.rs, fin.writes, false⟩

/-- `EmailAttachmentDownloader.download_attachments_with_count_limit`
(`email_downloader.py`, lines 560-702): as `from_folder`, but the
reversed ID list is cut to `count_limit` entries before batching. -/
def download_attachments_with_count_limit (mail : Option Server) (countLimit : Nat)
    (t : Option (List Str)) (dir : Str) (batchSize : Nat) (rs : RunState) : RunResult :=
  match mail with
  | none => ⟨none, rs, 0, true⟩
  | some sv =>
    let rs1 := ensureDir dir rs
    let rs2 := { rs1 with events := rs1.events ++ [Event.selectFolder] }
    if sv.selectOk = false then ⟨none, rs2, 0, true⟩
    else
      let rs3 := { rs2 with events := rs2.events ++ [Event.searchCmd] }
      if sv.searchOk = false then ⟨none, rs3, 0, true⟩
      else
        let fin := processBatches true sv t dir ⟨rs3, [], 0⟩
          (planBatches (countLimitSelection sv.searchIds countLimit) batchSize)
        ⟨some fin.downloaded, fin.rs, fin.writes, false⟩

/-- `EmailAttachmentDownloader.download_attachments_recent_days`
(`email_downloader.py`, lines 704-856): the recent-days window is
computed from the wall clock and resolved by the external server's
search (already reflected in `searchIds`); zero results return `[]`
early; otherwise like `from_folder`. The `days` parameter shapes only
the externally evaluated criterion. -/
def download_attachments_recent_days (mail : Option Server) (days : Nat)
    (t : Option (List Str)) (dir : Str) (batchSize : Nat) (rs : RunState) : RunResult :=
  match mail with
  | none => ⟨none, rs, 0, true⟩
  | some sv =>
    let _ := days
    let rs1 := ensureDir dir rs
    let rs2 := { rs1 with events := rs1.events ++ [Event.selectFolder] }
    if sv.selectOk = false then ⟨none, rs2, 0, true⟩
    else
      let rs3 := { rs2 with events := rs2.events ++ [Event.searchCmd] }
      if sv.searchOk = false then ⟨none, rs3, 0, true⟩
      else if sv.searchIds.isEmpty then ⟨some [], rs3, 0, false⟩
      else
        let fin := processBatches true sv t dir ⟨rs3, [], 0⟩
          (planBatches sv.searchIds.reverse batchSize)
        ⟨some fin.downloaded, fin.rs, fin.writes, false⟩

/-- `EmailAttachmentDownloader.download_attachments_by_date_range`
(`email_downloader.py`, lines 312-425): no reversal, no batching, and —
unlike the other three variants — no existence check before writing. -/
def download_attachments_by_date_range (mail : Option Server) (t : Option (List Str))
    (dir : Str) (rs : RunState) : RunResult :=
  match mail with
  | none => ⟨none, rs, 0, true⟩
  | some sv =>
    let rs1 := ensureDir dir rs
    let rs2 := { rs1 with events := rs1.events ++ [Event.selectFolder] }
    if sv.selectOk = false then ⟨none, rs2, 0, true⟩
    else
      let rs3 := { rs2 with events := rs2.events ++ [Event.searchCmd] }
      if sv.searchOk = false then ⟨none, rs3, 0, true⟩
      else
        let fin := processIds false sv t dir ⟨rs3, [], 0⟩ sv.searchIds
        ⟨some fin.downloaded, fin.rs, fin.writes, false⟩

/-- The paths a run records, read off the server alone: for each
fetchable message in order, the targets of its candidate parts in walk
order. Lemma `processIds_downloaded` identifies this with the
`downloaded_files` list the loops build. -/
def candidatePaths (sv : Server) (t : Option (List Str)) (dir : Str) (ids : List Nat) :
    List Str :=
  (ids.map fun n =>
    match sv.fetch n with
    | none => []
    | some parts => parts.filterMap (partTarget t dir)).flatten

/-- The observable core of an `ExtState`: everything except the event
trace (used to state that a skipped message leaves no trace on files,
directories, the result list, or the write count). -/
structure CoreView where
  files : FS
  dirs : List Str
  downloaded : List Str
  writes : Nat
  deriving DecidableEq

/-- Project the observable core out of an accumulator state. -/
def coreOf (st : ExtState) : CoreView :=
  ⟨st.rs.files, st.rs.dirs, st.downloaded, st.writes⟩

/-- Events that touch mailbox messages or the filesystem's files. -/
def isFetchOrWrite : Event → Bool
  | .fetchMsg _ => true
  | .writeFile _ => true
  | _ => false

/-- A run that aborted cleanly relative to the starting state `rs`:
Python `None` returned, the failure reported, no file changed, no write
counted, and no fetch or write event emitted. -/
def abortedCleanly (r : RunResult) (rs : RunState) : Prop :=
  r.ret = none ∧ r.errorSignal = true ∧ r.state.files = rs.files ∧ r.writes = 0 ∧
    r.state.events.filter isFetchOrWrite = rs.events.filter isFetchOrWrite

/-- Modelled from the spec: a part "carries a disposition indicating it
is an attachment rather than inline content" — the disposition token
(the header value up to the first `';'`) is present and is not
`inline` — besides being non-multipart and having a filename. -/
def specIsCandidate (p : Part) : Bool :=
  !(p.maintype == "multipart".toList) &&
    (match p.disposition with
     | some v => !(v.takeWhile (fun c => !(c == ';')) == "inline".toList)
     | none => false) &&
    filenameTruthy p

/-! ### Concrete fixtures for counterexamples and witnesses -/

/-- A short destination directory. -/
def demoDir : Str := "files".toList

/-- An ordinary attachment part named `invoice.xlsx` with body byte `1`. -/
def invoicePart : Part :=
  ⟨"application".toList, some "attachment".toList, some "invoice.xlsx".toList, [1]⟩

/-- A part with an `inline` disposition and a filename. -/
def inlinePart : Part :=
  ⟨"image".toList, some "inline".toList, some "x.png".toList, [7]⟩

/-- A healthy one-message server whose single message carries
`invoicePart`. -/
def demoServer : Server :=
  ⟨true, true, [1], fun n => if n = 1 then some [invoicePart] else none⟩

/-- A server whose folder selection fails. -/
def badSelectServer : Server :=
  ⟨false, true, [1], fun n => if n = 1 then some [invoicePart] else none⟩

/-- A three-message server whose middle message (ID 2) fails to fetch. -/
def flakyServer : Server :=
  ⟨true, true, [1, 2, 3], fun n => if n = 2 then none else some [invoicePart]⟩

/-- The destination path of `invoicePart` under `demoDir`. -/
def demoPath : Str := pathJoin demoDir (createSafeFilename "invoice.xlsx".toList)

/-- A starting state in which `demoPath` already holds byte `0` and the
download directory exists. -/
def demoRS0 : RunState := ⟨[(demoPath, [0])], [demoDir], []⟩

/-- A starting state with an empty download directory. -/
def emptyRS : RunState := ⟨[], [demoDir], []⟩

/-- The C6 counterexample input: `"abc."` followed by 250 `'a'`s — its
extension alone is 251 characters long. -/
def longName : Str := "abc.".toList ++ List.replicate 250 'a'

/-- A 214-character name with a short extension, exercising the
truncation branch. -/
def longTxtName : Str := List.replicate 210 'a' ++ ".txt".toList

/-! ## Helper lemmas: the sanitizer -/

lemma splitext_append (p : Str) : (splitextList p).1 ++ (splitextList p).2 = p := by
  unfold splitextList
  exact List.take_append_drop _ p

lemma mem_of_mem_stripSpaceDot {c : Char} {s : Str} (h : c ∈ stripSpaceDot s) : c ∈ s := by
  unfold stripSpaceDot at h
  rw [List.mem_reverse] at h
  have h2 := (List.dropWhile_sublist isSpaceDot).mem h
  rw [List.mem_reverse] at h2
  exact (List.dropWhile_sublist isSpaceDot).mem h2

lemma mem_replaceInvalid_not_invalid {c : Char} {s : Str} (h : c ∈ replaceInvalid s) :
    c ∉ invalidChars := by
  unfold replaceInvalid at h
  rcases List.mem_map.mp h with ⟨x, _, hx⟩
  by_cases hxi : x ∈ invalidChars
  · rw [if_pos hxi] at hx
    subst hx
    decide
  · rw [if_neg hxi] at hx
    subst hx
    exact hxi

lemma pySliceTake_eq_take (s : Str) (k : Int) : ∃ n, pySliceTake s k = s.take n := by
  unfold pySliceTake
  split
  · exact ⟨k.toNat, rfl⟩
  · exact ⟨s.length - (-k).toNat, rfl⟩

lemma mem_of_mem_truncate200 {c : Char} {s2 : Str} (h : c ∈ truncate200 s2) : c ∈ s2 := by
  unfold truncate200 at h
  split at h
  · rcases List.mem_append.mp h with h1 | h2
    · rcases pySliceTake_eq_take (splitextList s2).1 (200 - ((splitextList s2).2.length : Int))
        with ⟨n, hn⟩
      rw [hn] at h1
      have hmem : c ∈ (splitextList s2).1 := (List.take_sublist n _).mem h1
      rw [← splitext_append s2]
      exact List.mem_append.mpr (Or.inl hmem)
    · rw [← splitext_append s2]
      exact List.mem_append.mpr (Or.inr h2)
  · exact h

lemma truncate200_length {s2 : Str} (hext : (splitextList s2).2.length ≤ 200) :
    (truncate200 s2).length ≤ 200 := by
  unfold truncate200
  split
  · rw [List.length_append]
    have hk : (0 : Int) ≤ 200 - ((splitextList s2).2.length : Int) := by omega
    rw [pySliceTake, if_pos hk]
    have h1 : (List.take (200 - ((splitextList s2).2.length : Int)).toNat
        (splitextList s2).1).length ≤ (200 - ((splitextList s2).2.length : Int)).toNat :=
      List.length_take_le _ _
    omega
  · omega

lemma truncate200_suffix {s2 : Str} (h : 200 < s2.length) :
    ∃ pre, truncate200 s2 = pre ++ (splitextList s2).2 := by
  unfold truncate200
  rw [if_pos h]
  exact ⟨_, rfl⟩

lemma truncate200_ne_nil {s2 : Str} (h : 200 < s2.length) : truncate200 s2 ≠ [] := by
  unfold truncate200
  rw [if_pos h]
  by_cases hext : (splitextList s2).2 = []
  · have hfst : (splitextList s2).1 = s2 := by
      have h2 := splitext_append s2
      rw [hext, List.append_nil] at h2
      exact h2
    intro hnil
    rw [hext, List.append_nil, hfst] at hnil
    simp only [List.length_nil, Nat.cast_zero, Int.sub_zero, pySliceTake] at hnil
    rw [if_pos (by omega : (0 : Int) ≤ 200)] at hnil
    rcases List.take_eq_nil_iff.mp hnil with h1 | h1
    · simp at h1
    · rw [h1] at h
      simp at h
  · exact List.append_ne_nil_of_right_ne_nil _ hext

/-! ## Helper lemmas: batching -/

lemma chunkAux_nil (b fuel : Nat) : chunkAux b fuel [] = [] := by
  cases fuel <;> rfl

lemma chunkAux_fuel (b : Nat) (hb : 0 < b) :
    ∀ fuel1 fuel2 ids, ids.length ≤ fuel1 → ids.length ≤ fuel2 →
      chunkAux b fuel1 ids = chunkAux b fuel2 ids := by
  intro fuel1
  induction fuel1 with
  | zero =>
    intro fuel2 ids h1 _
    rw [List.eq_nil_of_length_eq_zero (Nat.le_zero.mp h1)]
    rw [chunkAux_nil, chunkAux_nil]
  | succ f ih =>
    intro fuel2 ids h1 h2
    cases ids with
    | nil => rw [chunkAux_nil, chunkAux_nil]
    | cons x xs =>
      cases fuel2 with
      | zero => simp at h2
      | succ g =>
        show (x :: xs).take b :: chunkAux b f ((x :: xs).drop b)
            = (x :: xs).take b :: chunkAux b g ((x :: xs).drop b)
        have hd : ((x :: xs).drop b).length = xs.length + 1 - b := List.length_drop b _
        rw [ih g ((x :: xs).drop b) (by simp at h1; omega) (by simp at h2; omega)]

lemma planBatches_cons (b : Nat) (hb : 0 < b) (ids : List Nat) (h : ids ≠ []) :
    planBatches ids b = ids.take b :: planBatches (ids.drop b) b := by
  cases ids with
  | nil => exact absurd rfl h
  | cons x xs =>
    show chunkAux b (xs.length + 1) (x :: xs) = _
    show (x :: xs).take b :: chunkAux b xs.length ((x :: xs).drop b)
        = (x :: xs).take b :: chunkAux b ((x :: xs).drop b).length ((x :: xs).drop b)
    have hd : ((x :: xs).drop b).length = xs.length + 1 - b := List.length_drop b _
    rw [chunkAux_fuel b hb xs.length ((x :: xs).drop b).length ((x :: xs).drop b)
      (by omega) le_rfl]

lemma planBatches_flatten_aux (b : Nat) (hb : 0 < b) :
    ∀ N ids, ids.length ≤ N → (planBatches ids b).flatten = ids := by
  intro N
  induction N with
  | zero =>
    intro ids h
    rw [List.eq_nil_of_length_eq_zero (Nat.le_zero.mp h)]
    rfl
  | succ n ih =>
    intro ids h
    by_cases hne : ids = []
    · subst hne; rfl
    · have hd : (ids.drop b).length ≤ n := by
        have h1 := List.length_drop b ids
        have h2 := List.length_pos.mpr hne
        omega
      rw [planBatches_cons b hb ids hne, List.flatten_cons, ih (ids.drop b) hd,
        List.take_append_drop]

/-- The batching loop visits exactly the original ID sequence, in
order. -/
lemma planBatches_flatten (b : Nat) (hb : 0 < b) (ids : List Nat) :
    (planBatches ids b).flatten = ids :=
  planBatches_flatten_aux b hb ids.length ids le_rfl

lemma planBatches_count_aux (b : Nat) (hb : 0 < b) :
    ∀ N ids, ids.length ≤ N → (planBatches ids b).length = (ids.length + b - 1) / b := by
  intro N
  induction N with
  | zero =>
    intro ids h
    rw [List.eq_nil_of_length_eq_zero (Nat.le_zero.mp h)]
    show 0 = (0 + b - 1) / b
    rw [Nat.div_eq_of_lt (by omega)]
  | succ n ih =>
    intro ids h
    by_cases hne : ids = []
    · subst hne
      show 0 = (0 + b - 1) / b
      rw [Nat.div_eq_of_lt (by omega)]
    · have hpos := List.length_pos.mpr hne
      have hdl : (ids.drop b).length = ids.length - b := List.length_drop b ids
      rw [planBatches_cons b hb ids hne, List.length_cons,
        ih (ids.drop b) (by omega), hdl]
      have h1 : ids.length + b - 1 = (ids.length - 1) + b := by omega
      rw [h1, Nat.add_div_right _ hb]
      by_cases hLb : b ≤ ids.length
      · have h2 : ids.length - b + b - 1 = ids.length - 1 := by omega
        rw [h2]
      · have h2 : ids.length - b = 0 := by omega
        rw [h2, Nat.div_eq_of_lt (show 0 + b - 1 < b by omega),
          Nat.div_eq_of_lt (show ids.length - 1 < b by omega)]

lemma planBatches_count (b : Nat) (hb : 0 < b) (ids : List Nat) :
    (planBatches ids b).length = (ids.length + b - 1) / b :=
  planBatches_count_aux b hb ids.length ids le_rfl

lemma planBatches_eq_nil_iff (b : Nat) (hb : 0 < b) (ids : List Nat) :
    planBatches ids b = [] ↔ ids = [] := by
  constructor
  · intro h
    by_cases hne : ids = []
    · exact hne
    · rw [planBatches_cons b hb ids hne] at h
      simp at h
  · intro h
    subst h
    rfl

lemma planBatches_mem_aux (b : Nat) (hb : 0 < b) :
    ∀ N ids, ids.length ≤ N → ∀ batch ∈ planBatches ids b, batch.length ≤ b := by
  intro N
  induction N with
  | zero =>
    intro ids h batch hm
    rw [List.eq_nil_of_length_eq_zero (Nat.le_zero.mp h)] at hm
    simp [planBatches, chunkAux_nil] at hm
  | succ n ih =>
    intro ids h batch hm
    by_cases hne : ids = []
    · subst hne
      simp [planBatches, chunkAux_nil] at hm
    · rw [planBatches_cons b hb ids hne] at hm
      rcases List.mem_cons.mp hm with h1 | h1
      · subst h1
        exact List.length_take_le b ids
      · have hd : (ids.drop b).length ≤ n := by
          have h2 := List.length_drop b ids
          have h3 := List.length_pos.mpr hne
          omega
        exact ih (ids.drop b) hd batch h1

lemma planBatches_mem (b : Nat) (hb : 0 < b) (ids : List Nat) :
    ∀ batch ∈ planBatches ids b, batch.length ≤ b :=
  planBatches_mem_aux b hb ids.length ids le_rfl

lemma planBatches_full_aux (b : Nat) (hb : 0 < b) :
    ∀ N ids, ids.length ≤ N → ∀ i, i + 1 < (planBatches ids b).length →
      ((planBatches ids b).getD i []).length = b := by
  intro N
  induction N with
  | zero =>
    intro ids h i hi
    rw [List.eq_nil_of_length_eq_zero (Nat.le_zero.mp h)] at hi
    simp [planBatches, chunkAux_nil] at hi
  | succ n ih =>
    intro ids h i hi
    by_cases hne : ids = []
    · subst hne
      simp [planBatches, chunkAux_nil] at hi
    · have hd : (ids.drop b).length ≤ n := by
        have h2 := List.length_drop b ids
        have h3 := List.length_pos.mpr hne
        omega
      rw [planBatches_cons b hb ids hne] at hi ⊢
      cases i with
      | zero =>
        show (ids.take b).length = b
        rw [List.length_cons] at hi
        have hrest : planBatches (ids.drop b) b ≠ [] := by
          intro hx
          rw [hx] at hi
          simp at hi
        have hdrop : ids.drop b ≠ [] := by
          intro hx
          exact hrest ((planBatches_eq_nil_iff b hb (ids.drop b)).mpr hx)
        have h4 := List.length_drop b ids
        have h5 := List.length_pos.mpr hdrop
        exact List.length_take_of_le (by omega)
      | succ j =>
        rw [List.length_cons] at hi
        show ((planBatches (ids.drop b) b).getD j []).length = b
        exact ih (ids.drop b) hd j (by omega)

lemma planBatches_full (b : Nat) (hb : 0 < b) (ids : List Nat) :
    ∀ i, i + 1 < (planBatches ids b).length → ((planBatches ids b).getD i []).length = b :=
  planBatches_full_aux b hb ids.length ids le_rfl

/-! ## Helper lemmas: the processing folds -/

lemma lookupFS_cons (q : Str) (bs : List Nat) (fs : FS) (p : Str) :
    lookupFS ((q, bs) :: fs) p = if q = p then some bs else lookupFS fs p := rfl

lemma processParts_cons (c : Bool) (t : Option (List Str)) (dir : Str)
    (st : ExtState) (p : Part) (ps : List Part) :
    processParts c t dir st (p :: ps) = processParts c t dir (processPart c t dir st p) ps :=
  rfl

lemma processIds_nil (c : Bool) (sv : Server) (t : Option (List Str)) (dir : Str)
    (st : ExtState) : processIds c sv t dir st [] = st := rfl

lemma processIds_cons (c : Bool) (sv : Server) (t : Option (List Str)) (dir : Str)
    (st : ExtState) (n : Nat) (ns : List Nat) :
    processIds c sv t dir st (n :: ns) =
      processIds c sv t dir
        (match sv.fetch n with
         | none => { st with rs := { st.rs with events := st.rs.events ++ [Event.fetchMsg n] } }
         | some parts => processParts c t dir
             { st with rs := { st.rs with events := st.rs.events ++ [Event.fetchMsg n] } } parts)
        ns := by
  show List.foldl _ _ (n :: ns) = _
  rw [List.foldl_cons]
  cases hf : sv.fetch n <;> simp only [hf] <;> rfl

lemma processIds_append (c : Bool) (sv : Server) (t : Option (List Str)) (dir : Str)
    (st : ExtState) (l1 l2 : List Nat) :
    processIds c sv t dir st (l1 ++ l2) =
      processIds c sv t dir (processIds c sv t dir st l1) l2 := by
  unfold processIds
  rw [List.foldl_append]

lemma processBatches_eq_flatten (c : Bool) (sv : Server) (t : Option (List Str)) (dir : Str) :
    ∀ batches st, processBatches c sv t dir st batches =
      processIds c sv t dir st batches.flatten := by
  intro batches
  induction batches with
  | nil => intro st; rfl
  | cons bt bts ih =>
    intro st
    show processBatches c sv t dir (processIds c sv t dir st bt) bts = _
    rw [ih, List.flatten_cons, processIds_append]

lemma processPart_none (c : Bool) (t : Option (List Str)) (dir : Str) (st : ExtState)
    (p : Part) (hpt : partTarget t dir p = none) : processPart c t dir st p = st := by
  unfold processPart
  rw [hpt]

lemma processPart_downloaded (c : Bool) (t : Option (List Str)) (dir : Str) (st : ExtState)
    (p : Part) : (processPart c t dir st p).downloaded
      = st.downloaded ++ (partTarget t dir p).toList := by
  unfold processPart
  cases hpt : partTarget t dir p
  · simp
  · simp only [Option.toList]
    split <;> rfl

lemma processParts_downloaded (c : Bool) (t : Option (List Str)) (dir : Str) :
    ∀ parts st, (processParts c t dir st parts).downloaded
      = st.downloaded ++ parts.filterMap (partTarget t dir) := by
  intro parts
  induction parts with
  | nil => intro st; simp [processParts]
  | cons p ps ih =>
    intro st
    rw [processParts_cons, ih, processPart_downloaded]
    cases hpt : partTarget t dir p <;> simp [List.filterMap_cons, hpt]

lemma candidatePaths_nil (sv : Server) (t : Option (List Str)) (dir : Str) :
    candidatePaths sv t dir [] = [] := rfl

lemma candidatePaths_cons (sv : Server) (t : Option (List Str)) (dir : Str) (n : Nat)
    (ns : List Nat) :
    candidatePaths sv t dir (n :: ns)
      = (match sv.fetch n with
         | none => []
         | some parts => parts.filterMap (partTarget t dir)) ++ candidatePaths sv t dir ns := by
  unfold candidatePaths
  rw [List.map_cons, List.flatten_cons]

/-- The `downloaded_files` list is exactly the candidate paths of the
processed IDs, appended to whatever was accumulated before — in
particular it does not depend on the filesystem. -/
lemma processIds_downloaded (c : Bool) (sv : Server) (t : Option (List Str)) (dir : Str) :
    ∀ ids st, (processIds c sv t dir st ids).downloaded
      = st.downloaded ++ candidatePaths sv t dir ids := by
  intro ids
  induction ids with
  | nil => intro st; rw [processIds_nil, candidatePaths_nil, List.append_nil]
  | cons n ns ih =>
    intro st
    rw [processIds_cons, candidatePaths_cons]
    cases hf : sv.fetch n
    · simp only [hf]
      rw [ih]
      simp
    · simp only [hf]
      rw [ih, processParts_downloaded]
      simp

lemma processPart_mono (c : Bool) (t : Option (List Str)) (dir : Str) (st : ExtState)
    (p : Part) (q : Str) (h : (lookupFS st.rs.files q).isSome = true) :
    (lookupFS (processPart c t dir st p).rs.files q).isSome = true := by
  unfold processPart
  cases hpt : partTarget t dir p
  · exact h
  case some path =>
    dsimp only
    by_cases hc : (c && (lookupFS st.rs.files path).isSome) = true
    · rw [if_pos hc]
      exact h
    · rw [if_neg hc]
      show (lookupFS ((path, p.content) :: st.rs.files) q).isSome = true
      rw [lookupFS_cons]
      by_cases hpq : path = q
      · rw [if_pos hpq]
        rfl
      · rw [if_neg hpq]
        exact h

lemma processParts_mono (c : Bool) (t : Option (List Str)) (dir : Str) :
    ∀ parts st q, (lookupFS st.rs.files q).isSome = true →
      (lookupFS (processParts c t dir st parts).rs.files q).isSome = true := by
  intro parts
  induction parts with
  | nil => intro st q h; exact h
  | cons p ps ih =>
    intro st q h
    rw [processParts_cons]
    exact ih _ q (processPart_mono c t dir st p q h)

lemma processIds_mono (c : Bool) (sv : Server) (t : Option (List Str)) (dir : Str) :
    ∀ ids st q, (lookupFS st.rs.files q).isSome = true →
      (lookupFS (processIds c sv t dir st ids).rs.files q).isSome = true := by
  intro ids
  induction ids with
  | nil => intro st q h; exact h
  | cons n ns ih =>
    intro st q h
    rw [processIds_cons]
    cases hf : sv.fetch n
    · simp only [hf]
      exact ih _ q h
    · simp only [hf]
      exact ih _ q (processParts_mono c t dir _ _ q h)

lemma processPart_preserve (t : Option (List Str)) (dir : Str) (st : ExtState) (p : Part)
    (q : Str) (b0 : List Nat) (h : lookupFS st.rs.files q = some b0) :
    lookupFS (processPart true t dir st p).rs.files q = some b0 := by
  unfold processPart
  cases hpt : partTarget t dir p
  · exact h
  case some path =>
    dsimp only
    by_cases hc : (true && (lookupFS st.rs.files path).isSome) = true
    · rw [if_pos hc]
      exact h
    · rw [if_neg hc]
      show lookupFS ((path, p.content) :: st.rs.files) q = some b0
      rw [lookupFS_cons]
      by_cases hpq : path = q
      · exfalso
        apply hc
        rw [hpq, h]
        rfl
      · rw [if_neg hpq]
        exact h

lemma processParts_preserve (t : Option (List Str)) (dir : Str) :
    ∀ parts st q b0, lookupFS st.rs.files q = some b0 →
      lookupFS (processParts true t dir st parts).rs.files q = some b0 := by
  intro parts
  induction parts with
  | nil => intro st q b0 h; exact h
  | cons p ps ih =>
    intro st q b0 h
    rw [processParts_cons]
    exact ih _ q b0 (processPart_preserve t dir st p q b0 h)

/-- With the existence check on, a path that already holds bytes `b0`
still holds exactly `b0` after any amount of processing. -/
lemma processIds_preserve (sv : Server) (t : Option (List Str)) (dir : Str) :
    ∀ ids st q b0, lookupFS st.rs.files q = some b0 →
      lookupFS (processIds true sv t dir st ids).rs.files q = some b0 := by
  intro ids
  induction ids with
  | nil => intro st q b0 h; exact h
  | cons n ns ih =>
    intro st q b0 h
    rw [processIds_cons]
    cases hf : sv.fetch n
    · simp only [hf]
      exact ih _ q b0 h
    · simp only [hf]
      exact ih _ q b0 (processParts_preserve t dir _ _ q b0 h)

lemma processPart_target_present (t : Option (List Str)) (dir : Str) (st : ExtState)
    (p : Part) (path : Str) (hpt : partTarget t dir p = some path) :
    (lookupFS (processPart true t dir st p).rs.files path).isSome = true := by
  unfold processPart
  rw [hpt]
  dsimp only
  by_cases hc : (true && (lookupFS st.rs.files path).isSome) = true
  · rw [if_pos hc]
    simp at hc
    exact hc
  · rw [if_neg hc]
    show (lookupFS ((path, p.content) :: st.rs.files) path).isSome = true
    rw [lookupFS_cons, if_pos rfl]
    rfl

lemma processParts_present (t : Option (List Str)) (dir : Str) :
    ∀ parts st q, q ∈ parts.filterMap (partTarget t dir) →
      (lookupFS (processParts true t dir st parts).rs.files q).isSome = true := by
  intro parts
  induction parts with
  | nil => intro st q h; simp at h
  | cons p ps ih =>
    intro st q h
    rw [List.filterMap_cons] at h
    rw [processParts_cons]
    cases hpt : partTarget t dir p
    · rw [hpt] at h
      rw [processPart_none true t dir st p hpt]
      exact ih st q h
    case some path =>
      rw [hpt] at h
      rcases List.mem_cons.mp h with h1 | h1
      · subst h1
        exact processParts_mono true t dir ps _ q
          (processPart_target_present t dir st p q hpt)
      · exact ih _ q h1

/-- After a checked processing pass, every candidate path is present on
disk. -/
lemma processIds_present (sv : Server) (t : Option (List Str)) (dir : Str) :
    ∀ ids st q, q ∈ candidatePaths sv t dir ids →
      (lookupFS (processIds true sv t dir st ids).rs.files q).isSome = true := by
  intro ids
  induction ids with
  | nil => intro st q h; simp [candidatePaths_nil] at h
  | cons n ns ih =>
    intro st q h
    rw [candidatePaths_cons] at h
    rw [processIds_cons]
    cases hf : sv.fetch n
    · simp only [hf] at h ⊢
      simp at h
      exact ih _ q h
    case some parts =>
      simp only [hf] at h ⊢
      rcases List.mem_append.mp h with h1 | h1
      · exact processIds_mono true sv t dir ns _ q
          (processParts_present t dir parts _ q h1)
      · exact ih _ q h1

lemma processPart_writes_noop (t : Option (List Str)) (dir : Str) (st : ExtState)
    (p : Part) (h : ∀ q ∈ (partTarget t dir p).toList,
      (lookupFS st.rs.files q).isSome = true) :
    (processPart true t dir st p).writes = st.writes ∧
      (processPart true t dir st p).rs.files = st.rs.files := by
  unfold processPart
  cases hpt : partTarget t dir p
  · exact ⟨rfl, rfl⟩
  case some path =>
    dsimp only
    have hq : (lookupFS st.rs.files path).isSome = true := by
      apply h
      rw [hpt]
      exact List.mem_singleton.mpr rfl
    rw [if_pos (by rw [hq]; rfl)]
    exact ⟨rfl, rfl⟩

lemma processParts_writes_zero (t : Option (List Str)) (dir : Str) :
    ∀ parts st, (∀ q ∈ parts.filterMap (partTarget t dir),
        (lookupFS st.rs.files q).isSome = true) →
      (processParts true t dir st parts).writes = st.writes ∧
        (processParts true t dir st parts).rs.files = st.rs.files := by
  intro parts
  induction parts with
  | nil => intro st _; exact ⟨rfl, rfl⟩
  | cons p ps ih =>
    intro st h
    rw [processParts_cons]
    have hhead : ∀ q ∈ (partTarget t dir p).toList,
        (lookupFS st.rs.files q).isSome = true := by
      intro q hq
      apply h
      rw [List.filterMap_cons]
      cases hpt : partTarget t dir p
      · rw [hpt] at hq
        simp at hq
      · rw [hpt] at hq
        simp at hq
        subst hq
        simp [hpt]
    obtain ⟨hw, hf⟩ := processPart_writes_noop t dir st p hhead
    have htail := ih (processPart true t dir st p)
      (by
        intro q hq
        rw [hf]
        apply h
        rw [List.filterMap_cons]
        cases hpt : partTarget t dir p
        · exact hq
        · exact List.mem_cons_of_mem _ hq)
    rw [htail.1, htail.2, hw, hf]
    exact ⟨rfl, rfl⟩

/-- If every candidate path is already on disk, a checked processing
pass performs no write at all (and leaves the files untouched). -/
lemma processIds_writes_zero (sv : Server) (t : Option (List Str)) (dir : Str) :
    ∀ ids st, (∀ q ∈ candidatePaths sv t dir ids,
        (lookupFS st.rs.files q).isSome = true) →
      (processIds true sv t dir st ids).writes = st.writes ∧
        (processIds true sv t dir st ids).rs.files = st.rs.files := by
  intro ids
  induction ids with
  | nil => intro st _; exact ⟨rfl, rfl⟩
  | cons n ns ih =>
    intro st h
    rw [processIds_cons]
    cases hf : sv.fetch n
    · simp only [hf]
      apply ih
      intro q hq
      apply h
      rw [candidatePaths_cons]
      simp only [hf]
      simp
      exact hq
    case some parts =>
      simp only [hf]
      have hparts : ∀ q ∈ parts.filterMap (partTarget t dir),
          (lookupFS st.rs.files q).isSome = true := by
        intro q hq
        apply h
        rw [candidatePaths_cons]
        simp only [hf]
        exact List.mem_append.mpr (Or.inl hq)
      obtain ⟨hw, hfi⟩ := processParts_writes_zero t dir parts
        { st with rs := { st.rs with events := st.rs.events ++ [Event.fetchMsg n] } }
        (by intro q hq; exact hparts q hq)
      have htail := ih (processParts true t dir
          { st with rs := { st.rs with events := st.rs.events ++ [Event.fetchMsg n] } } parts)
        (by
          intro q hq
          rw [hfi]
          exact h q (by
            rw [candidatePaths_cons]
            simp only [hf]
            exact List.mem_append.mpr (Or.inr hq)))
      rw [htail.1, htail.2, hw, hfi]
      exact ⟨rfl, rfl⟩

lemma processPart_core_congr (c : Bool) (t : Option (List Str)) (dir : Str)
    (st1 st2 : ExtState) (p : Part) (h : coreOf st1 = coreOf st2) :
    coreOf (processPart c t dir st1 p) = coreOf (processPart c t dir st2 p) := by
  simp only [coreOf, CoreView.mk.injEq] at h
  obtain ⟨hfiles, hdirs, hdl, hw⟩ := h
  unfold processPart
  cases hpt : partTarget t dir p
  · simp only [coreOf, CoreView.mk.injEq]
    exact ⟨hfiles, hdirs, hdl, hw⟩
  case some path =>
    dsimp only
    by_cases hc : (c && (lookupFS st2.rs.files path).isSome) = true
    · rw [if_pos hc, if_pos (by rw [hfiles]; exact hc)]
      simp only [coreOf, CoreView.mk.injEq]
      exact ⟨hfiles, hdirs, by rw [hdl], hw⟩
    · rw [if_neg hc, if_neg (by rw [hfiles]; exact hc)]
      simp only [coreOf, CoreView.mk.injEq]
      exact ⟨by rw [hfiles], hdirs, by rw [hdl], by rw [hw]⟩

lemma processParts_core_congr (c : Bool) (t : Option (List Str)) (dir : Str) :
    ∀ parts st1 st2, coreOf st1 = coreOf st2 →
      coreOf (processParts c t dir st1 parts) = coreOf (processParts c t dir st2 parts) := by
  intro parts
  induction parts with
  | nil => intro st1 st2 h; exact h
  | cons p ps ih =>
    intro st1 st2 h
    rw [processParts_cons, processParts_cons]
    exact ih _ _ (processPart_core_congr c t dir st1 st2 p h)

/-- The observable core of processing depends only on the observable
core of the starting state (event traces are irrelevant to it). -/
lemma processIds_core_congr (c : Bool) (sv : Server) (t : Option (List Str)) (dir : Str) :
    ∀ ids st1 st2, coreOf st1 = coreOf st2 →
      coreOf (processIds c sv t dir st1 ids) = coreOf (processIds c sv t dir st2 ids) := by
  intro ids
  induction ids with
  | nil => intro st1 st2 h; exact h
  | cons n ns ih =>
    intro st1 st2 h
    rw [processIds_cons, processIds_cons]
    cases hf : sv.fetch n
    · simp only [hf]
      apply ih
      exact h
    case some parts =>
      simp only [hf]
      apply ih
      apply processParts_core_congr
      exact h

lemma processPart_events_ext (c : Bool) (t : Option (List Str)) (dir : Str)
    (st : ExtState) (p : Part) :
    ∃ tail, (processPart c t dir st p).rs.events = st.rs.events ++ tail := by
  unfold processPart
  cases hpt : partTarget t dir p
  · exact ⟨[], by simp⟩
  case some path =>
    dsimp only
    by_cases hc : (c && (lookupFS st.rs.files path).isSome) = true
    · rw [if_pos hc]
      exact ⟨[], by simp⟩
    · rw [if_neg hc]
      exact ⟨[Event.writeFile path], rfl⟩

lemma processParts_events_ext (c : Bool) (t : Option (List Str)) (dir : Str) :
    ∀ parts st, ∃ tail, (processParts c t dir st parts).rs.events = st.rs.events ++ tail := by
  intro parts
  induction parts with
  | nil => intro st; exact ⟨[], by simp [processParts]⟩
  | cons p ps ih =>
    intro st
    rw [processParts_cons]
    obtain ⟨t1, h1⟩ := processPart_events_ext c t dir st p
    obtain ⟨t2, h2⟩ := ih (processPart c t dir st p)
    exact ⟨t1 ++ t2, by rw [h2, h1, List.append_assoc]⟩

lemma processIds_events_ext (c : Bool) (sv : Server) (t : Option (List Str)) (dir : Str) :
    ∀ ids st, ∃ tail, (processIds c sv t dir st ids).rs.events = st.rs.events ++ tail := by
  intro ids
  induction ids with
  | nil => intro st; exact ⟨[], by simp [processIds]⟩
  | cons n ns ih =>
    intro st
    rw [processIds_cons]
    cases hf : sv.fetch n
    · simp only [hf]
      obtain ⟨t2, h2⟩ := ih
        { st with rs := { st.rs with events := st.rs.events ++ [Event.fetchMsg n] } }
      exact ⟨[Event.fetchMsg n] ++ t2, by rw [h2]; simp⟩
    case some parts =>
      simp only [hf]
      obtain ⟨t1, h1⟩ := processParts_events_ext c t dir parts
        { st with rs := { st.rs with events := st.rs.events ++ [Event.fetchMsg n] } }
      obtain ⟨t2, h2⟩ := ih (processParts c t dir
        { st with rs := { st.rs with events := st.rs.events ++ [Event.fetchMsg n] } } parts)
      exact ⟨[Event.fetchMsg n] ++ t1 ++ t2, by rw [h2, h1]; simp⟩

lemma processBatches_events_ext (c : Bool) (sv : Server) (t : Option (List Str)) (dir : Str)
    (batches : List (List Nat)) (st : ExtState) :
    ∃ tail, (processBatches c sv t dir st batches).rs.events = st.rs.events ++ tail := by
  rw [processBatches_eq_flatten]
  exact processIds_events_ext c sv t dir batches.flatten st

lemma processPart_dirs (c : Bool) (t : Option (List Str)) (dir : Str) (st : ExtState)
    (p : Part) : (processPart c t dir st p).rs.dirs = st.rs.dirs := by
  unfold processPart
  cases hpt : partTarget t dir p
  · rfl
  case some path =>
    dsimp only
    by_cases hc : (c && (lookupFS st.rs.files path).isSome) = true
    · rw [if_pos hc]
    · rw [if_neg hc]

lemma processParts_dirs (c : Bool) (t : Option (List Str)) (dir : Str) :
    ∀ parts st, (processParts c t dir st parts).rs.dirs = st.rs.dirs := by
  intro parts
  induction parts with
  | nil => intro st; rfl
  | cons p ps ih =>
    intro st
    rw [processParts_cons, ih, processPart_dirs]

lemma processIds_dirs (c : Bool) (sv : Server) (t : Option (List Str)) (dir : Str) :
    ∀ ids st, (processIds c sv t dir st ids).rs.dirs = st.rs.dirs := by
  intro ids
  induction ids with
  | nil => intro st; rfl
  | cons n ns ih =>
    intro st
    rw [processIds_cons]
    cases hf : sv.fetch n
    · simp only [hf]
      rw [ih]
    case some parts =>
      simp only [hf]
      rw [ih, processParts_dirs]

lemma ensureDir_files (dir : Str) (rs : RunState) : (ensureDir dir rs).files = rs.files := by
  unfold ensureDir
  split <;> rfl

lemma ensureDir_events (dir : Str) (rs : RunState) :
    (ensureDir dir rs).events
      = rs.events ++ (if rs.dirs.contains dir then [] else [Event.mkdir dir]) := by
  unfold ensureDir
  split
  case isTrue h => simp [h]
  case isFalse h => rfl

lemma ensureDir_contains (dir : Str) (rs : RunState) :
    (ensureDir dir rs).dirs.contains dir = true := by
  unfold ensureDir
  split
  case isTrue h => exact h
  case isFalse h => simp [List.contains_cons]

lemma processBatches_dirs (c : Bool) (sv : Server) (t : Option (List Str)) (dir : Str)
    (batches : List (List Nat)) (st : ExtState) :
    (processBatches c sv t dir st batches).rs.dirs = st.rs.dirs := by
  rw [processBatches_eq_flatten]
  exact processIds_dirs c sv t dir batches.flatten st

/-- A checked pass re-run against the filesystem a first pass left
behind performs no write. -/
lemma checked_idem (sv : Server) (t : Option (List Str)) (dir : Str) (ids : List Nat)
    (st1 st2 : ExtState)
    (hfiles : st2.rs.files = (processIds true sv t dir st1 ids).rs.files) :
    (processIds true sv t dir st2 ids).writes = st2.writes := by
  have hpresent : ∀ q ∈ candidatePaths sv t dir ids,
      (lookupFS st2.rs.files q).isSome = true := by
    intro q hq
    rw [hfiles]
    exact processIds_present sv t dir ids st1 q hq
  exact (processIds_writes_zero sv t dir ids st2 hpresent).1

/-! ## The claims -/

/-- C1, counterexample. The claim says `CountLimit{n}` processes exactly
the `n` oldest messages oldest-first. IMAP message sequence numbers are
positional (RFC 3501: sequence number = relative position from 1), so a
server's ID sequence `[1, 2, 3]` is in ascending assignment order and
its two oldest entries, oldest-first, are `[1, 2]` (`specOldestSelection`).
The code (`message_list.reverse()` then `[:count_limit]`) selects
`[3, 2]` — the two newest, newest-first. -/
theorem c1_count_limit_counterexample :
    countLimitSelection [1, 2, 3] 2 = [3, 2] ∧
    specOldestSelection [1, 2, 3] 2 = [1, 2] ∧
    countLimitSelection [1, 2, 3] 2 ≠ specOldestSelection [1, 2, 3] 2 := by
  refine ⟨rfl, rfl, ?_⟩
  decide

/-- C1, amended. The count-limit retrieval processes at most `n`
messages, and those messages are exactly the last `n` entries of the
server-returned ID sequence taken in reverse order — i.e. the `n`
newest by assignment order, processed newest-first, whenever the server
returns IDs ascending. -/
theorem c1_count_limit_takes_last_reversed (raw : List Nat) (n : Nat) :
    (countLimitSelection raw n).length ≤ n ∧
    countLimitSelection raw n = (raw.drop (raw.length - n)).reverse :=
  ⟨List.length_take_le n raw.reverse, List.take_reverse⟩

/-- C3, counterexample. The claim says `DateRange{start, end}` selects
exactly the messages with `start ≤ d ≤ end`, both bounds inclusive. The
code issues `(SINCE start BEFORE end)`; under RFC 3501 semantics,
`BEFORE end` excludes the end date itself: a message received exactly on
the end date (here 2024-01-05) satisfies the claim's predicate but is
not selected. -/
theorem c3_date_range_counterexample :
    specDateInRange ⟨2024, 1, 1⟩ ⟨2024, 1, 5⟩ ⟨2024, 1, 5⟩ ∧
    evalKey (dateRangeCriterion ⟨2024, 1, 1⟩ ⟨2024, 1, 5⟩) ⟨2024, 1, 5⟩ = false := by
  exact ⟨by decide, by decide⟩

/-- C3, amended. The criterion the code constructs selects exactly the
messages whose receipt calendar date `d` satisfies
`start ≤ d < end` — start inclusive, end EXCLUSIVE. -/
theorem c3_date_range_half_open (s e dt : CalDate) :
    evalKey (dateRangeCriterion s e) dt = true ↔ (dateLeP s dt ∧ dateLtP dt e) := by
  simp [evalKey, dateRangeCriterion]

/-- C8, confirmed. For a positive batch size `b` the batching loop
partitions the oldest-first ID sequence into consecutive batches whose
concatenation is the original sequence, every batch has at most `b`
entries, every batch except possibly the last has exactly `b` entries,
there are `⌈n/b⌉ = (n + b - 1) / b` batches, and in particular 50
messages with batch size 20 give batches of sizes 20, 20, 10. -/
theorem c8_batching (ids : List Nat) (b : Nat) (hb : 0 < b) :
    (planBatches ids b).flatten = ids ∧
    (planBatches ids b).length = (ids.length + b - 1) / b ∧
    (∀ batch ∈ planBatches ids b, batch.length ≤ b) ∧
    (∀ i, i + 1 < (planBatches ids b).length → ((planBatches ids b).getD i []).length = b) ∧
    (planBatches (List.range 50) 20).map List.length = [20, 20, 10] :=
  ⟨planBatches_flatten b hb ids, planBatches_count b hb ids, planBatches_mem b hb ids,
    planBatches_full b hb ids, by decide⟩

/-- C8, witness at 50 messages and batch size 20. -/
theorem c8_batching_witness :
    0 < 20 ∧
    ((planBatches (List.range 50) 20).flatten = List.range 50 ∧
      (planBatches (List.range 50) 20).length = ((List.range 50).length + 20 - 1) / 20 ∧
      (∀ batch ∈ planBatches (List.range 50) 20, batch.length ≤ 20) ∧
      (∀ i, i + 1 < (planBatches (List.range 50) 20).length →
        ((planBatches (List.range 50) 20).getD i []).length = 20) ∧
      (planBatches (List.range 50) 20).map List.length = [20, 20, 10]) :=
  ⟨by decide, c8_batching (List.range 50) 20 (by decide)⟩

set_option maxRecDepth 40000 in
/-- C6, counterexample. The claim says the sanitizer always returns at
most 200 characters and preserves the input's extension. On
`longName = "abc." ++ 250 * 'a'` (254 characters, whose `splitext`
extension is 251 characters long), the truncation `name[:200-len(ext)]`
uses a negative Python slice bound, and the result is 251 characters
long with no extension at all. -/
theorem c6_sanitizer_counterexample :
    (createSafeFilename longName).length = 251 ∧
    (splitextList (createSafeFilename longName)).2 = [] ∧
    (splitextList longName).2.length = 251 := by
  refine ⟨by decide, by decide, by decide⟩

/-- C6, amended. For every input the sanitizer returns a non-empty name
containing none of the reserved characters; the result has at most 200
characters provided the sanitized name's extension has at most 200
characters; and when the 200-character truncation fires, the result
keeps the sanitized name's extension (not necessarily the raw input's)
as a suffix. -/
theorem c6_sanitizer_total (s : Str) :
    createSafeFilename s ≠ [] ∧
    (∀ c ∈ createSafeFilename s, c ∉ invalidChars) ∧
    ((splitextList (stripSpaceDot (replaceInvalid s))).2.length ≤ 200 →
      (createSafeFilename s).length ≤ 200) ∧
    (200 < (stripSpaceDot (replaceInvalid s)).length →
      ∃ pre, createSafeFilename s
        = pre ++ (splitextList (stripSpaceDot (replaceInvalid s))).2) := by
  by_cases hs : s = []
  · subst hs
    exact ⟨by decide, by decide, fun _ => by decide, fun h => absurd h (by decide)⟩
  · have hstep : createSafeFilename s =
        (if truncate200 (stripSpaceDot (replaceInvalid s)) = [] then unnamedFile
         else truncate200 (stripSpaceDot (replaceInvalid s))) := by
      unfold createSafeFilename
      rw [if_neg hs]
    by_cases h3 : truncate200 (stripSpaceDot (replaceInvalid s)) = []
    · rw [hstep, if_pos h3]
      refine ⟨by decide, by decide, fun _ => by decide, ?_⟩
      intro h200
      exact absurd h3 (truncate200_ne_nil h200)
    · rw [hstep, if_neg h3]
      refine ⟨h3, ?_, ?_, ?_⟩
      · intro c hc
        exact mem_replaceInvalid_not_invalid
          (mem_of_mem_stripSpaceDot (mem_of_mem_truncate200 hc))
      · intro hext
        exact truncate200_length hext
      · intro h200
        exact truncate200_suffix h200

set_option maxRecDepth 40000 in
/-- C6, witness at a 214-character name with extension `.txt`: the
truncation hypothesis and the short-extension hypothesis are both
discharged concretely. -/
theorem c6_sanitizer_total_witness :
    createSafeFilename longTxtName ≠ [] ∧
    (∀ c ∈ createSafeFilename longTxtName, c ∉ invalidChars) ∧
    (createSafeFilename longTxtName).length ≤ 200 ∧
    ∃ pre, createSafeFilename longTxtName
      = pre ++ (splitextList (stripSpaceDot (replaceInvalid longTxtName))).2 := by
  obtain ⟨h1, h2, h3, h4⟩ := c6_sanitizer_total longTxtName
  exact ⟨h1, h2, h3 (by decide), h4 (by decide)⟩

/-- C7, counterexample. The claim says a part is a candidate only if its
disposition indicates an attachment rather than inline content, and that
inline parts are never extracted. The code only tests
`part.get('Content-Disposition') is None`: `inlinePart`, whose
disposition is `inline` (so not a candidate per the claim,
`specIsCandidate`), is assigned a destination path and is extracted —
processing a message holding it records (and writes) its path. -/
theorem c7_inline_extracted_counterexample :
    partTarget none demoDir inlinePart = some (pathJoin demoDir "x.png".toList) ∧
    specIsCandidate inlinePart = false ∧
    (processPart true none demoDir ⟨emptyRS, [], 0⟩ inlinePart).downloaded
      = [pathJoin demoDir "x.png".toList] ∧
    (processPart true none demoDir ⟨emptyRS, [], 0⟩ inlinePart).writes = 1 := by
  exact ⟨by decide, by decide, by decide, by decide⟩

/-- C7, amended. With no extension filter active, a part is treated as a
candidate attachment (assigned a destination path) if and only if its
MIME maintype is not `multipart`, it carries a `Content-Disposition`
header of any value — inline included — and it has a non-empty
filename. -/
theorem c7_candidate_rule (p : Part) (dir : Str) :
    (partTarget none dir p).isSome = true ↔
      (¬ p.maintype = "multipart".toList ∧ p.disposition.isSome = true
        ∧ filenameTruthy p = true) := by
  unfold partTarget
  by_cases h1 : p.maintype = "multipart".toList
  · simp [h1]
  · cases hd : p.disposition
    · simp [h1, hd]
    · cases hf : p.filename
      · simp [h1, hd, hf, filenameTruthy]
      next f =>
        by_cases hfe : f.isEmpty = true
        · simp [h1, hd, hf, hfe, filenameTruthy]
        · simp [h1, hd, hf, hfe, filenameTruthy, extFilterRejects, typesActive]

/-- C2, counterexample. The claim says pre-existing destination files
are never overwritten, "for all RangeSpec variants, including the
date-range variant". The date-range routine has no existence check: run
against `demoRS0`, where `demoPath` already holds byte `0`, it leaves
`demoPath` holding byte `1` (the attachment's content) — the on-disk
bytes changed. -/
theorem c2_date_range_overwrites_counterexample :
    lookupFS demoRS0.files demoPath = some [0] ∧
    lookupFS (download_attachments_by_date_range (some demoServer) none demoDir
        demoRS0).state.files demoPath = some [1] := by
  exact ⟨by decide, by decide⟩

/-- C2, amended. In the three variants with the existence check
(`from_folder`, `count_limit`, `recent_days`, i.e. checked processing):
a path holding bytes `b0` before the run holds exactly `b0` after it,
and the result records every candidate path (existing ones included),
since `downloaded_files` accumulates exactly the candidate paths. In
the date-range variant the write is unconditional: a candidate part's
target path holds the attachment's bytes afterwards, whatever it held
before. -/
theorem c2_no_overwrite (sv : Server) (t : Option (List Str)) (dir : Str) (ids : List Nat)
    (st : ExtState) (q : Str) (b0 : List Nat)
    (hq : lookupFS st.rs.files q = some b0) :
    lookupFS (processIds true sv t dir st ids).rs.files q = some b0 ∧
    (processIds true sv t dir st ids).downloaded
      = st.downloaded ++ candidatePaths sv t dir ids ∧
    (∀ p path, partTarget t dir p = some path →
      lookupFS (processPart false t dir st p).rs.files path = some p.content) := by
  refine ⟨processIds_preserve sv t dir ids st q b0 hq,
    processIds_downloaded true sv t dir ids st, ?_⟩
  intro p path hpt
  unfold processPart
  rw [hpt]
  dsimp only
  show lookupFS ((path, p.content) :: st.rs.files) path = some p.content
  rw [lookupFS_cons, if_pos rfl]

/-- C2, witness: with `demoPath` pre-existing with byte `0`, the checked
run over `demoServer` leaves its bytes untouched and still records the
path in the result. -/
theorem c2_no_overwrite_witness :
    lookupFS (⟨demoRS0, [], 0⟩ : ExtState).rs.files demoPath = some [0] ∧
    lookupFS (processIds true demoServer none demoDir ⟨demoRS0, [], 0⟩ [1]).rs.files demoPath
      = some [0] ∧
    (processIds true demoServer none demoDir ⟨demoRS0, [], 0⟩ [1]).downloaded
      = [] ++ candidatePaths demoServer none demoDir [1] := by
  refine ⟨by decide, ?_, ?_⟩
  · exact (c2_no_overwrite demoServer none demoDir [1] ⟨demoRS0, [], 0⟩ demoPath [0]
      (by decide)).1
  · exact (c2_no_overwrite demoServer none demoDir [1] ⟨demoRS0, [], 0⟩ demoPath [0]
      (by decide)).2.1

/-- C5, confirmed. A message whose fetch fails (non-OK status or
exception, both modelled by `fetch = none`) contributes nothing and
changes nothing: processing an ID sequence containing the failing
message `m` yields the same files, directories, result list and write
count as processing the sequence with `m` removed — the remaining
messages of its batch and of all later batches are all still processed.
The second conjunct states the same through the batching loop itself. -/
theorem c5_fetch_failure_skipped (c : Bool) (sv : Server) (t : Option (List Str))
    (dir : Str) (st : ExtState) (xs ys : List Nat) (m : Nat) (b : Nat)
    (hm : sv.fetch m = none) (hb : 0 < b) :
    coreOf (processIds c sv t dir st (xs ++ m :: ys))
      = coreOf (processIds c sv t dir st (xs ++ ys)) ∧
    coreOf (processBatches c sv t dir st (planBatches (xs ++ m :: ys) b))
      = coreOf (processBatches c sv t dir st (planBatches (xs ++ ys) b)) := by
  have hcore : coreOf (processIds c sv t dir st (xs ++ m :: ys))
      = coreOf (processIds c sv t dir st (xs ++ ys)) := by
    rw [processIds_append, processIds_append, processIds_cons]
    simp only [hm]
    apply processIds_core_congr
    rfl
  refine ⟨hcore, ?_⟩
  rw [processBatches_eq_flatten, processBatches_eq_flatten,
    planBatches_flatten b hb, planBatches_flatten b hb]
  exact hcore

/-- C5, witness: on `flakyServer` (IDs `[1, 2, 3]`, fetch of message 2
fails) the run over `[1, 2, 3]` has the same observable core as the run
over `[1, 3]`. -/
theorem c5_fetch_failure_skipped_witness :
    flakyServer.fetch 2 = none ∧ 0 < 2 ∧
    coreOf (processIds true flakyServer none demoDir ⟨emptyRS, [], 0⟩ ([1] ++ 2 :: [3]))
      = coreOf (processIds true flakyServer none demoDir ⟨emptyRS, [], 0⟩ ([1] ++ [3])) := by
  refine ⟨by decide, by decide, ?_⟩
  exact (c5_fetch_failure_skipped true flakyServer none demoDir ⟨emptyRS, [], 0⟩
    [1] [3] 2 2 (by decide) (by decide)).1

lemma filter_prep_events (dir : Str) (rs : RunState) (tail : List Event)
    (htail : tail.filter isFetchOrWrite = []) :
    ((ensureDir dir rs).events ++ tail).filter isFetchOrWrite
      = rs.events.filter isFetchOrWrite := by
  rw [List.filter_append, ensureDir_events, List.filter_append, htail, List.append_nil]
  cases hcd : rs.dirs.contains dir <;> simp [isFetchOrWrite]

/-- C4, counterexample. The claim says a failed folder selection returns
"an empty result (an empty sequence of file paths)". The code's bare
`return` yields Python `None`, not an empty list: the embedded return
value is `none`, distinct from `some []`. -/
theorem c4_returns_none_counterexample :
    (download_attachments_from_folder (some badSelectServer) none demoDir 100 demoRS0).ret
      = none ∧
    (download_attachments_from_folder (some badSelectServer) none demoDir 100 demoRS0).ret
      ≠ some [] := by
  exact ⟨by decide, by decide⟩

/-- C4, amended. When folder selection or the search fails at the
protocol level (status not OK), `download_attachments_from_folder` and
`download_attachments_with_count_limit` abort immediately: they return
Python `None` (no result value, rather than an empty sequence) together
with an error signal, with no message fetched, no file written, and the
files on disk untouched. -/
theorem c4_protocol_failure_aborts (sv : Server) (t : Option (List Str)) (dir : Str)
    (b n : Nat) (rs : RunState) (h : sv.selectOk = false ∨ sv.searchOk = false) :
    abortedCleanly (download_attachments_from_folder (some sv) t dir b rs) rs ∧
    abortedCleanly (download_attachments_with_count_limit (some sv) n t dir b rs) rs := by
  constructor
  · cases hsel : sv.selectOk
    · unfold download_attachments_from_folder
      dsimp only
      rw [if_pos hsel]
      refine ⟨rfl, rfl, ensureDir_files dir rs, rfl, ?_⟩
      show ((ensureDir dir rs).events ++ [Event.selectFolder]).filter isFetchOrWrite
          = rs.events.filter isFetchOrWrite
      exact filter_prep_events dir rs [Event.selectFolder] rfl
    · rcases h with h | h
      · rw [hsel] at h
        exact absurd h (by simp)
      · unfold download_attachments_from_folder
        dsimp only
        rw [if_neg (by rw [hsel]; simp), if_pos h]
        refine ⟨rfl, rfl, ensureDir_files dir rs, rfl, ?_⟩
        show (((ensureDir dir rs).events ++ [Event.selectFolder]) ++ [Event.searchCmd]).filter
            isFetchOrWrite = rs.events.filter isFetchOrWrite
        rw [List.append_assoc]
        exact filter_prep_events dir rs ([Event.selectFolder] ++ [Event.searchCmd]) rfl
  · cases hsel : sv.selectOk
    · unfold download_attachments_with_count_limit
      dsimp only
      rw [if_pos hsel]
      refine ⟨rfl, rfl, ensureDir_files dir rs, rfl, ?_⟩
      show ((ensureDir dir rs).events ++ [Event.selectFolder]).filter isFetchOrWrite
          = rs.events.filter isFetchOrWrite
      exact filter_prep_events dir rs [Event.selectFolder] rfl
    · rcases h with h | h
      · rw [hsel] at h
        exact absurd h (by simp)
      · unfold download_attachments_with_count_limit
        dsimp only
        rw [if_neg (by rw [hsel]; simp), if_pos h]
        refine ⟨rfl, rfl, ensureDir_files dir rs, rfl, ?_⟩
        show (((ensureDir dir rs).events ++ [Event.selectFolder]) ++ [Event.searchCmd]).filter
            isFetchOrWrite = rs.events.filter isFetchOrWrite
        rw [List.append_assoc]
        exact filter_prep_events dir rs ([Event.selectFolder] ++ [Event.searchCmd]) rfl

/-- C4, witness at `badSelectServer` (selection fails). -/
theorem c4_protocol_failure_aborts_witness :
    (badSelectServer.selectOk = false ∨ badSelectServer.searchOk = false) ∧
    abortedCleanly
      (download_attachments_from_folder (some badSelectServer) none demoDir 100 demoRS0)
      demoRS0 ∧
    abortedCleanly
      (download_attachments_with_count_limit (some badSelectServer) 5 none demoDir 100 demoRS0)
      demoRS0 := by
  refine ⟨Or.inl (by decide), ?_, ?_⟩
  · exact (c4_protocol_failure_aborts badSelectServer none demoDir 100 5 demoRS0
      (Or.inl (by decide))).1
  · exact (c4_protocol_failure_aborts badSelectServer none demoDir 100 5 demoRS0
      (Or.inl (by decide))).2

lemma run_shape_of_ext (dir : Str) (rs : RunState) (ev2 : List Event)
    (hext : ∃ tail, ev2
      = (((ensureDir dir rs).events ++ [Event.selectFolder]) ++ [Event.searchCmd]) ++ tail) :
    ∃ rest, ev2 = rs.events ++ (if rs.dirs.contains dir then [] else [Event.mkdir dir])
      ++ Event.selectFolder :: rest := by
  obtain ⟨tail, htail⟩ := hext
  refine ⟨Event.searchCmd :: tail, ?_⟩
  rw [htail, ensureDir_events]
  simp [List.append_assoc]

/-- C10, confirmed. With no mailbox session (`connect` has not
succeeded, `self.mail = None`) each download operation returns `None`
immediately with the ambient state untouched — in particular the
destination directory is not created and no event is emitted. With a
session, each operation's event trace begins with the (conditional)
recursive creation of the destination directory, strictly before the
folder selection and everything after it; afterwards the destination
directory exists. -/
theorem c10_session_guard (t : Option (List Str)) (dir : Str) (b n days : Nat)
    (rs : RunState) (sv : Server) :
    download_attachments_from_folder none t dir b rs = ⟨none, rs, 0, true⟩ ∧
    download_attachments_with_count_limit none n t dir b rs = ⟨none, rs, 0, true⟩ ∧
    download_attachments_recent_days none days t dir b rs = ⟨none, rs, 0, true⟩ ∧
    download_attachments_by_date_range none t dir rs = ⟨none, rs, 0, true⟩ ∧
    ((∃ rest, (download_attachments_from_folder (some sv) t dir b rs).state.events
        = rs.events ++ (if rs.dirs.contains dir then [] else [Event.mkdir dir])
          ++ Event.selectFolder :: rest) ∧
      (download_attachments_from_folder (some sv) t dir b rs).state.dirs.contains dir
        = true) ∧
    ((∃ rest, (download_attachments_with_count_limit (some sv) n t dir b rs).state.events
        = rs.events ++ (if rs.dirs.contains dir then [] else [Event.mkdir dir])
          ++ Event.selectFolder :: rest) ∧
      (download_attachments_with_count_limit (some sv) n t dir b rs).state.dirs.contains dir
        = true) ∧
    ((∃ rest, (download_attachments_recent_days (some sv) days t dir b rs).state.events
        = rs.events ++ (if rs.dirs.contains dir then [] else [Event.mkdir dir])
          ++ Event.selectFolder :: rest) ∧
      (download_attachments_recent_days (some sv) days t dir b rs).state.dirs.contains dir
        = true) := by
  refine ⟨rfl, rfl, rfl, rfl, ⟨?_, ?_⟩, ⟨?_, ?_⟩, ⟨?_, ?_⟩⟩
  · cases hsel : sv.selectOk
    · unfold download_attachments_from_folder
      dsimp only
      rw [if_pos hsel]
      refine ⟨[], ?_⟩
      rw [ensureDir_events]
    · cases hsearch : sv.searchOk
      · unfold download_attachments_from_folder
        dsimp only
        rw [if_neg (by rw [hsel]; simp), if_pos hsearch]
        refine ⟨[Event.searchCmd], ?_⟩
        rw [ensureDir_events]
        simp [List.append_assoc]
      · unfold download_attachments_from_folder
        dsimp only
        rw [if_neg (by rw [hsel]; simp), if_neg (by rw [hsearch]; simp)]
        exact run_shape_of_ext dir rs _ (processBatches_events_ext true sv t dir _ _)
  · cases hsel : sv.selectOk
    · unfold download_attachments_from_folder
      dsimp only
      rw [if_pos hsel]
      exact ensureDir_contains dir rs
    · cases hsearch : sv.searchOk
      · unfold download_attachments_from_folder
        dsimp only
        rw [if_neg (by rw [hsel]; simp), if_pos hsearch]
        exact ensureDir_contains dir rs
      · unfold download_attachments_from_folder
        dsimp only
        rw [if_neg (by rw [hsel]; simp), if_neg (by rw [hsearch]; simp)]
        dsimp only
        rw [processBatches_dirs]
        exact ensureDir_contains dir rs
  · cases hsel : sv.selectOk
    · unfold download_attachments_with_count_limit
      dsimp only
      rw [if_pos hsel]
      refine ⟨[], ?_⟩
      rw [ensureDir_events]
    · cases hsearch : sv.searchOk
      · unfold download_attachments_with_count_limit
        dsimp only
        rw [if_neg (by rw [hsel]; simp), if_pos hsearch]
        refine ⟨[Event.searchCmd], ?_⟩
        rw [ensureDir_events]
        simp [List.append_assoc]
      · unfold download_attachments_with_count_limit
        dsimp only
        rw [if_neg (by rw [hsel]; simp), if_neg (by rw [hsearch]; simp)]
        exact run_shape_of_ext dir rs _ (processBatches_events_ext true sv t dir _ _)
  · cases hsel : sv.selectOk
    · unfold download_attachments_with_count_limit
      dsimp only
      rw [if_pos hsel]
      exact ensureDir_contains dir rs
    · cases hsearch : sv.searchOk
      · unfold download_attachments_with_count_limit
        dsimp only
        rw [if_neg (by rw [hsel]; simp), if_pos hsearch]
        exact ensureDir_contains dir rs
      · unfold download_attachments_with_count_limit
        dsimp only
        rw [if_neg (by rw [hsel]; simp), if_neg (by rw [hsearch]; simp)]
        dsimp only
        rw [processBatches_dirs]
        exact ensureDir_contains dir rs
  · cases hsel : sv.selectOk
    · unfold download_attachments_recent_days
      dsimp only
      rw [if_pos hsel]
      refine ⟨[], ?_⟩
      rw [ensureDir_events]
    · cases hsearch : sv.searchOk
      · unfold download_attachments_recent_days
        dsimp only
        rw [if_neg (by rw [hsel]; simp), if_pos hsearch]
        refine ⟨[Event.searchCmd], ?_⟩
        rw [ensureDir_events]
        simp [List.append_assoc]
      · unfold download_attachments_recent_days
        dsimp only
        rw [if_neg (by rw [hsel]; simp), if_neg (by rw [hsearch]; simp)]
        cases hempty : sv.searchIds.isEmpty
        · rw [if_neg (by simp : ¬false = true)]
          exact run_shape_of_ext dir rs _ (processBatches_events_ext true sv t dir _ _)
        · rw [if_pos (rfl : true = true)]
          refine ⟨[Event.searchCmd], ?_⟩
          rw [ensureDir_events]
          simp [List.append_assoc]
  · cases hsel : sv.selectOk
    · unfold download_attachments_recent_days
      dsimp only
      rw [if_pos hsel]
      exact ensureDir_contains dir rs
    · cases hsearch : sv.searchOk
      · unfold download_attachments_recent_days
        dsimp only
        rw [if_neg (by rw [hsel]; simp), if_pos hsearch]
        exact ensureDir_contains dir rs
      · unfold download_attachments_recent_days
        dsimp only
        rw [if_neg (by rw [hsel]; simp), if_neg (by rw [hsearch]; simp)]
        cases hempty : sv.searchIds.isEmpty
        · rw [if_neg (by simp : ¬false = true)]
          dsimp only
          rw [processBatches_dirs]
          exact ensureDir_contains dir rs
        · rw [if_pos (rfl : true = true)]
          exact ensureDir_contains dir rs

/-- C9, counterexample. The claim says a second run against an
unchanged mailbox and destination performs zero writes. The date-range
variant (cited by the claim) has no existence check: its second run
re-writes the one attachment — one write, not zero. -/
theorem c9_date_range_rewrites_counterexample :
    (download_attachments_by_date_range (some demoServer) none demoDir
        (download_attachments_by_date_range (some demoServer) none demoDir emptyRS).state).writes
      = 1 ∧
    ¬ (download_attachments_by_date_range (some demoServer) none demoDir
        (download_attachments_by_date_range (some demoServer) none demoDir emptyRS).state).writes
      = 0 := by
  exact ⟨by decide, by decide⟩

/-- C9, amended. Against an unchanged server and with the destination
directory carried over from the first run, a second identical run
returns the same result paths for both the checked `from_folder`
retrieval and the unchecked date-range retrieval; and the second run of
the checked retrieval performs zero writes (every attachment is found
already present). The date-range variant instead re-writes its
attachments (see the counterexample). -/
theorem c9_idempotent (sv : Server) (t : Option (List Str)) (dir : Str) (b : Nat)
    (rs : RunState) (hb : 0 < b) :
    (download_attachments_from_folder (some sv) t dir b
        (download_attachments_from_folder (some sv) t dir b rs).state).ret
      = (download_attachments_from_folder (some sv) t dir b rs).ret ∧
    (download_attachments_from_folder (some sv) t dir b
        (download_attachments_from_folder (some sv) t dir b rs).state).writes = 0 ∧
    (download_attachments_by_date_range (some sv) t dir
        (download_attachments_by_date_range (some sv) t dir rs).state).ret
      = (download_attachments_by_date_range (some sv) t dir rs).ret := by
  cases hsel : sv.selectOk
  · unfold download_attachments_from_folder download_attachments_by_date_range
    dsimp only
    simp only [if_pos hsel]
    exact ⟨trivial, trivial, trivial⟩
  · cases hsearch : sv.searchOk
    · have hns : ¬ sv.selectOk = false := by rw [hsel]; simp
      unfold download_attachments_from_folder download_attachments_by_date_range
      dsimp only
      simp only [if_neg hns, if_pos hsearch]
      exact ⟨trivial, trivial, trivial⟩
    · have hns : ¬ sv.selectOk = false := by rw [hsel]; simp
      have hnse : ¬ sv.searchOk = false := by rw [hsearch]; simp
      unfold download_attachments_from_folder download_attachments_by_date_range
      dsimp only
      simp only [if_neg hns, if_neg hnse]
      simp only [processBatches_eq_flatten, planBatches_flatten b hb]
      refine ⟨?_, ?_, ?_⟩
      · simp [processIds_downloaded]
      · exact checked_idem sv t dir sv.searchIds.reverse _ _
          (ensureDir_files dir _)
      · simp [processIds_downloaded]

/-- C9, witness at `demoServer` (one message, one attachment) with batch
size 1 and an empty starting directory. -/
theorem c9_idempotent_witness :
    0 < 1 ∧
    ((download_attachments_from_folder (some demoServer) none demoDir 1
        (download_attachments_from_folder (some demoServer) none demoDir 1 emptyRS).state).ret
      = (download_attachments_from_folder (some demoServer) none demoDir 1 emptyRS).ret ∧
    (download_attachments_from_folder (some demoServer) none demoDir 1
        (download_attachments_from_folder (some demoServer) none demoDir 1 emptyRS).state).writes
      = 0 ∧
    (download_attachments_by_date_range (some demoServer) none demoDir
        (download_attachments_by_date_range (some demoServer) none demoDir emptyRS).state).ret
      = (download_attachments_by_date_range (some demoServer) none demoDir emptyRS).ret) :=
  ⟨by decide, c9_idempotent demoServer none demoDir 1 emptyRS (by decide)⟩

end EmailFetcher
